import Mathlib

/-!
Shallow embedding of the Azkar/Adiyah content-browser application
(React single-page app, `src/unnamed/part_000` plus `src/types.ts`).

The embedding models:
* the data model (`Item`, `Category`, `Section`) from `types.ts`;
* the audio coordinator (`AudioProvider`: `play`, `stop`, and the
  utterance callbacks `onstart`, `onend`, `onerror`) as a state machine
  driven by discrete events, matching the single-threaded event-driven
  execution model of the browser;
* the routing helpers (`handleBack`, `SectionCategoriesPage`,
  `ItemsListPage`) over an abstract static store (the `APP_DATA` value
  itself lives in a module not present in the sources);
* the per-item actions of `ContentCard` (`handleCopy`, `handleShare`,
  `handleSpeak`) including a model of `encodeURIComponent`.
-/

namespace Azkar

/-- Data model from `types.ts`: an `Item` has an id, display text, and
optional source citation, repeat count and note.  `CategoryId` is a closed
string enumeration in TypeScript; ids are modelled as strings. -/
structure Item where
  id : String
  text : String
  source : Option String := none
  count : Option Nat := none
  note : Option String := none
deriving Repr, DecidableEq

/-- Data model from `types.ts`: a `Category` has an id, title, optional
icon key, and an ordered list of items. -/
structure Category where
  id : String
  title : String
  icon : Option String := none
  items : List Item
deriving Repr, DecidableEq

/-- Data model from `types.ts`: a `Section` has an id (`azkar` or
`adiyah` in the data), title, description, and ordered categories. -/
structure Section where
  id : String
  title : String
  description : String
  categories : List Category
deriving Repr, DecidableEq

/-! ### Audio coordinator (`AudioProvider`) -/

/-- Lifecycle phase of a speech-synthesis utterance that has been passed
to `window.speechSynthesis.speak`: it is `scheduled` until the engine
fires `onstart`, and `started` afterwards. -/
inductive Phase where
  | scheduled
  | started
deriving Repr, DecidableEq

/-- The in-flight utterance: the id and text captured by the closure in
`play`, plus its lifecycle phase. -/
structure Utterance where
  id : String
  text : String
  phase : Phase
deriving Repr, DecidableEq

/-- State of the audio coordinator: the React state `playingId`
(a single nullable slot) together with the speech engine's in-flight
utterance (at most one, because `play` always calls
`window.speechSynthesis.cancel()` before `speak`, and `stop` cancels). -/
structure AudioState where
  playingId : Option String
  current : Option Utterance
deriving Repr, DecidableEq

/-- The initial coordinator state: `useState<string | null>(null)` and no
utterance in flight. -/
def initAudio : AudioState := { playingId := none, current := none }

/-- Events driving the coordinator: the two public operations
(`play`, `stop`) and the engine callbacks registered in `play`
(`onstart`, `onend`, `onerror`).  The engine fires callbacks only for
the current (non-cancelled) utterance; `cancel` removes the in-flight
utterance so its callbacks no longer fire. -/
inductive AudioEvent where
  | reqPlay (id text : String)
  | reqStop
  | evStart
  | evEnd
  | evError
deriving Repr, DecidableEq

/-- `stop` from the source: `window.speechSynthesis.cancel()` (drops the
in-flight utterance), `setPlayingId(null)`, `utteranceRef.current = null`. -/
def stopAudio (_s : AudioState) : AudioState :=
  { playingId := none, current := none }

/-- `play(id, text)` from the source: if `playingId === id` toggle stop;
otherwise cancel any current playback, build a new utterance with the
callbacks attached, and `speak` it.  `setPlayingId` is NOT called here:
the id becomes active only in `onstart`. -/
def playAudio (id text : String) (s : AudioState) : AudioState :=
  if s.playingId = some id then
    stopAudio s
  else
    { playingId := s.playingId
      current := some { id := id, text := text, phase := .scheduled } }

/-- `utterance.onstart`: fires when the scheduled utterance actually
begins; runs `setPlayingId(id)`. -/
def onStart (s : AudioState) : AudioState :=
  match s.current with
  | some u =>
      if u.phase = .scheduled then
        { playingId := some u.id, current := some { u with phase := .started } }
      else s
  | none => s

/-- `utterance.onend`: fires when a started utterance completes
naturally; runs `setPlayingId(null)` and clears `utteranceRef`. -/
def onEnd (s : AudioState) : AudioState :=
  match s.current with
  | some u =>
      if u.phase = .started then { playingId := none, current := none }
      else s
  | none => s

/-- `utterance.onerror`: logs the error, runs `setPlayingId(null)` and
clears `utteranceRef`; the engine may report an error before or after
start. -/
def onError (s : AudioState) : AudioState :=
  match s.current with
  | some _ => { playingId := none, current := none }
  | none => s

/-- One step of the coordinator state machine. -/
def audioStep (e : AudioEvent) (s : AudioState) : AudioState :=
  match e with
  | .reqPlay id text => playAudio id text s
  | .reqStop => stopAudio s
  | .evStart => onStart s
  | .evEnd => onEnd s
  | .evError => onError s

/-- Run the coordinator from the initial state over a list of events. -/
def runAudio (evs : List AudioEvent) : AudioState :=
  evs.foldl (fun s e => audioStep e s) initAudio

/-- The list of currently active ids (the nullable slot viewed as a
list): empty or a singleton. -/
def activeIds (s : AudioState) : List String :=
  s.playingId.toList

/-! ### `ContentCard.handleSpeak` -/

/-- Outcome of one `handleSpeak` click: how many alert dialogs were
shown during the attempt, and the coordinator state afterwards. -/
structure SpeakOutcome where
  alerts : Nat
  state : AudioState
deriving Repr, DecidableEq

/-- `handleSpeak` from `ContentCard`: if `speechSynthesis` is not in
`window`, alert once and return without touching the coordinator;
otherwise toggle via the context (`stop()` when this item is playing,
`play(item.id, item.text)` otherwise).  `speechAvailable` models the
`'speechSynthesis' in window` capability test. -/
def handleSpeak (speechAvailable : Bool) (item : Item) (s : AudioState) :
    SpeakOutcome :=
  if !speechAvailable then
    { alerts := 1, state := s }
  else if s.playingId = some item.id then
    { alerts := 0, state := stopAudio s }
  else
    { alerts := 0, state := playAudio item.id item.text s }

/-! ### Share link (`ContentCard.handleShare`) and `encodeURIComponent` -/

/-- The characters `encodeURIComponent` leaves unescaped
(ECMA-262 `uriUnescaped`): ASCII alphanumerics and `- _ . ! ~ * ' ( )`,
here by code point (the apostrophe is 39). -/
def isUriUnescaped (c : Char) : Bool :=
  let n := c.toNat
  (65 ≤ n && n ≤ 90) || (97 ≤ n && n ≤ 122) || (48 ≤ n && n ≤ 57) ||
  n = 45 || n = 95 || n = 46 || n = 33 || n = 126 || n = 42 ||
  n = 39 || n = 40 || n = 41

/-- Uppercase hexadecimal digit for `n < 16`. -/
def hexDigitChar (n : Nat) : Char :=
  if n < 10 then Char.ofNat (48 + n) else Char.ofNat (55 + n)

/-- The three characters `%XY` escaping one byte. -/
def percentByteChars (b : Nat) : List Char :=
  ['%', hexDigitChar (b / 16), hexDigitChar (b % 16)]

/-- UTF-8 encoding of one Unicode scalar value, as a list of bytes. -/
def utf8Bytes (c : Char) : List Nat :=
  let n := c.toNat
  if n < 0x80 then [n]
  else if n < 0x800 then
    [0xC0 + n / 64, 0x80 + n % 64]
  else if n < 0x10000 then
    [0xE0 + n / 4096, 0x80 + (n / 64) % 64, 0x80 + n % 64]
  else
    [0xF0 + n / 262144, 0x80 + (n / 4096) % 64, 0x80 + (n / 64) % 64,
     0x80 + n % 64]

/-- `encodeURIComponent` on one character: kept verbatim if unescaped,
otherwise each UTF-8 byte is percent-escaped. -/
def encodeChar (c : Char) : List Char :=
  if isUriUnescaped c then [c]
  else (utf8Bytes c).flatMap percentByteChars

/-- The browser built-in `encodeURIComponent` (ECMA-262). -/
def encodeURIComponent (s : String) : String :=
  ⟨s.data.flatMap encodeChar⟩

/-- Value of a hexadecimal digit character, if it is one. -/
def hexVal (c : Char) : Option Nat :=
  if 48 ≤ c.toNat ∧ c.toNat ≤ 57 then some (c.toNat - 48)
  else if 65 ≤ c.toNat ∧ c.toNat ≤ 70 then some (c.toNat - 55)
  else if 97 ≤ c.toNat ∧ c.toNat ≤ 102 then some (c.toNat - 87)
  else none

/-- Percent-decoding of a character sequence back to a byte sequence:
`%XY` becomes the byte `16*X + Y`; any other character stands for its
own code unit.  Fails on a malformed escape. -/
def percentDecodeBytes : List Char → Option (List Nat)
  | [] => some []
  | c :: rest =>
      if c = '%' then
        match rest with
        | h :: l :: rest2 =>
            match hexVal h, hexVal l with
            | some hv, some lv =>
                (percentDecodeBytes rest2).map ((16 * hv + lv) :: ·)
            | _, _ => none
        | _ => none
      else (percentDecodeBytes rest).map (c.toNat :: ·)

/-- Decode one UTF-8-encoded scalar value from a leading byte and the
following bytes: returns the scalar and the unconsumed remainder, or
`none` on a malformed prefix. -/
def utf8DecodeOne (b : Nat) (rest : List Nat) : Option (Nat × List Nat) :=
  if b < 128 then some (b, rest)
  else if b < 224 then
    match rest with
    | b2 :: rest2 =>
        if 192 ≤ b ∧ 128 ≤ b2 ∧ b2 < 192 then
          some ((b - 192) * 64 + (b2 - 128), rest2)
        else none
    | [] => none
  else if b < 240 then
    match rest with
    | b2 :: b3 :: rest3 =>
        if 128 ≤ b2 ∧ b2 < 192 ∧ 128 ≤ b3 ∧ b3 < 192 then
          some ((b - 224) * 4096 + (b2 - 128) * 64 + (b3 - 128), rest3)
        else none
    | _ => none
  else if b < 248 then
    match rest with
    | b2 :: b3 :: b4 :: rest4 =>
        if 128 ≤ b2 ∧ b2 < 192 ∧ 128 ≤ b3 ∧ b3 < 192 ∧
           128 ≤ b4 ∧ b4 < 192 then
          some ((b - 240) * 262144 + (b2 - 128) * 4096 +
            (b3 - 128) * 64 + (b4 - 128), rest4)
        else none
    | _ => none
  else none

/-- UTF-8 decoding of a byte sequence, fuelled by an upper bound on the
number of scalars (each scalar consumes at least one byte). -/
def utf8DecodeAux : Nat → List Nat → Option (List Char)
  | _, [] => some []
  | 0, _ :: _ => none
  | fuel + 1, b :: rest =>
      match utf8DecodeOne b rest with
      | some (n, rest2) =>
          if n.isValidChar then
            (utf8DecodeAux fuel rest2).map (Char.ofNat n :: ·)
          else none
      | none => none

/-- UTF-8 decoding of a byte sequence into characters; fails on
malformed sequences or invalid scalar values. -/
def utf8DecodeBytes (bs : List Nat) : Option (List Char) :=
  utf8DecodeAux bs.length bs

/-- Inverse of `encodeURIComponent`: percent-decode to bytes, then
UTF-8 decode. -/
def decodeURIComponent (s : String) : Option String :=
  match percentDecodeBytes s.data with
  | some bs =>
      match utf8DecodeBytes bs with
      | some cs => some ⟨cs⟩
      | none => none
  | none => none

/-- The fixed attribution suffix appended to the item text in
`handleShare` (`'\n\n' + '- من تطبيق ذكّرني'`). -/
def attributionSuffix : String := "\n\n" ++ "- من تطبيق ذكّرني"

/-- The fixed share-template base of `handleShare`. -/
def shareUrlBase : String := "https://wa.me/?text="

/-- `handleShare` from `ContentCard`: the WhatsApp share URL with the
item text plus attribution suffix, percent-encoded. -/
def handleShare (item : Item) : String :=
  shareUrlBase ++ encodeURIComponent (item.text ++ attributionSuffix)

/-! ### Navigation (`Header.handleBack`, routing pages) -/

/-- JavaScript `str.split('/')` for the single-character separator used
by `handleBack`, on the character list. -/
def splitSlashAux : List Char → List Char → List String
  | [], acc => [⟨acc.reverse⟩]
  | c :: rest, acc =>
      if c = '/' then (⟨acc.reverse⟩ : String) :: splitSlashAux rest []
      else splitSlashAux rest (c :: acc)

/-- `pathname.split('/')` from `handleBack`. -/
def splitSlash (s : String) : List String :=
  splitSlashAux s.data []

/-- `pathname.split('/').filter(Boolean)`: drop empty segments. -/
def pathSegments (pathname : String) : List String :=
  (splitSlash pathname).filter (fun seg => seg ≠ "")

/-- `handleBack` from `Header`: with more than one path segment
(`/section/category`) navigate to `/section`; otherwise navigate home. -/
def handleBack (pathname : String) : String :=
  let segs := pathSegments pathname
  if segs.length > 1 then "/" ++ segs.headD "" else "/"

/-- What `SectionCategoriesPage` renders: the not-found placeholder
(`القسم غير موجود`) or the section view. -/
inductive SectionPageView where
  | notFound
  | sectionView (sec : Section)
deriving Repr, DecidableEq

/-- `SectionCategoriesPage`: look the `sectionId` route param up in the
static store (`APP_DATA.find(s => s.id === sectionId)`); render the
not-found placeholder when absent. -/
def sectionCategoriesPage (store : List Section) (sectionId : String) :
    SectionPageView :=
  match store.find? (fun s => s.id = sectionId) with
  | none => .notFound
  | some sec => .sectionView sec

/-- What `ItemsListPage` renders: the not-found placeholder
(`المحتوى غير موجود`) or the items view for a section and category. -/
inductive ItemsPageView where
  | notFound
  | itemsView (sec : Section) (cat : Category)
deriving Repr, DecidableEq

/-- `ItemsListPage`: look up the section, then the category inside it
(`section?.categories.find(c => c.id === categoryId)`); render the
not-found placeholder when either is absent. -/
def itemsListPage (store : List Section) (sectionId categoryId : String) :
    ItemsPageView :=
  let sec := store.find? (fun s => s.id = sectionId)
  let cat := sec.bind (fun s => s.categories.find? (fun c => c.id = categoryId))
  match cat, sec with
  | some c, some s => .itemsView s c
  | _, _ => .notFound

/-! ### `ContentCard` action affordances -/

/-- Which action buttons one rendered `ContentCard` offers. -/
structure CardActions where
  speak : Bool
  copy : Bool
  share : Bool
deriving Repr, DecidableEq

/-- The action buttons of `ContentCard` as a function of its `type`
prop: the Speak button renders only under `type === 'azkar'`, the Share
button only under `type === 'adiyah'`, and the Copy button always. -/
def contentCardActions (ty : String) : CardActions :=
  { speak := ty = "azkar", copy := true, share := ty = "adiyah" }

/-- The cards rendered by `ItemsListPage` in the items view: one card
per item of the category, each receiving `type = sectionId`. -/
def itemsListPageCards (store : List Section) (sectionId categoryId : String) :
    List (Item × CardActions) :=
  match itemsListPage store sectionId categoryId with
  | .notFound => []
  | .itemsView _ cat => cat.items.map (fun it => (it, contentCardActions sectionId))

/-! ## Theorems -/

/-- C1: for every item, calling `play(id, text)` when `id` is the
currently active id deactivates it — playback is cancelled and the active
id cleared — so two consecutive play requests on the same item (from a
state in which no *other* item is active) leave no item active. -/
theorem play_same_id_toggles_off (id t t2 : String) (s : AudioState) :
    (s.playingId = some id → audioStep (.reqPlay id t) s = initAudio) ∧
    ((∀ j, s.playingId = some j → j = id) →
      (audioStep (.reqPlay id t2) (audioStep (.reqPlay id t) s)).playingId
        = none) := by
  constructor
  · intro h
    simp [audioStep, playAudio, stopAudio, initAudio, h]
  · intro h
    by_cases hid : s.playingId = some id
    · simp [audioStep, playAudio, stopAudio, hid]
    · have hnone : s.playingId = none := by
        cases hj : s.playingId with
        | none => rfl
        | some j => exact absurd (hj ▸ (h j hj ▸ hj)) (by simp_all)
      simp [audioStep, playAudio, stopAudio, hnone]

/-- Witness for C1 at a concrete state: item `m1` active, then two
consecutive play requests leave no item active. -/
theorem play_same_id_toggles_off_witness :
    (audioStep (.reqPlay "m1" "t")
        { playingId := some "m1",
          current := some { id := "m1", text := "t", phase := .started } }
      = initAudio) ∧
    (audioStep (.reqPlay "m1" "t")
        (audioStep (.reqPlay "m1" "t")
          { playingId := some "m1",
            current := some { id := "m1", text := "t", phase := .started } })).playingId
      = none := by
  refine ⟨(play_same_id_toggles_off "m1" "t" "t"
      { playingId := some "m1",
        current := some { id := "m1", text := "t", phase := .started } }).1 rfl,
    (play_same_id_toggles_off "m1" "t" "t"
      { playingId := some "m1",
        current := some { id := "m1", text := "t", phase := .started } }).2 ?_⟩
  intro j hj
  simpa using hj.symm

/-- C2: the active slot of the coordinator is a single nullable cell, so
every state — in particular every reachable one — has at most one active
id, every event-step preserves this, and the start event that activates a
new scheduled utterance leaves exactly that utterance's id active,
deactivating any previous occupant. -/
theorem at_most_one_active :
    (∀ s : AudioState, (activeIds s).length ≤ 1) ∧
    (∀ (evs : List AudioEvent), (activeIds (runAudio evs)).length ≤ 1) ∧
    (∀ (e : AudioEvent) (s : AudioState),
      (activeIds (audioStep e s)).length ≤ 1) ∧
    (∀ (s : AudioState) (u : Utterance), s.current = some u →
      u.phase = Phase.scheduled →
      activeIds (audioStep .evStart s) = [u.id]) := by
  have hall : ∀ s : AudioState, (activeIds s).length ≤ 1 := by
    intro s
    cases h : s.playingId <;> simp [activeIds, h]
  refine ⟨hall, fun evs => hall _, fun e s => hall _, ?_⟩
  intro s u hu hph
  simp [audioStep, onStart, activeIds, hu, hph]

/-- Witness for C2: activating the scheduled utterance `m1` leaves
exactly `m1` active. -/
theorem at_most_one_active_witness :
    activeIds (audioStep .evStart
      { playingId := some "old",
        current := some { id := "m1", text := "t", phase := .scheduled } })
      = ["m1"] :=
  at_most_one_active.2.2.2
    { playingId := some "old",
      current := some { id := "m1", text := "t", phase := .scheduled } }
    { id := "m1", text := "t", phase := .scheduled } rfl rfl

/-- C3: for items `a ≠ b`, playing `a` (which then starts) and then
playing `b` replaces `a`'s utterance by `b`'s (cancelling `a`'s
playback), and once `b`'s playback starts, `b` is active and `a` is
not. -/
theorem preemption_a_then_b (a b ta tb : String) (s : AudioState)
    (hab : a ≠ b) :
    ((audioStep (.reqPlay b tb)
        (audioStep .evStart (audioStep (.reqPlay a ta) s))).current
      = some { id := b, text := tb, phase := .scheduled }) ∧
    ((audioStep .evStart (audioStep (.reqPlay b tb)
        (audioStep .evStart (audioStep (.reqPlay a ta) s)))).playingId
      = some b) ∧
    ((audioStep .evStart (audioStep (.reqPlay b tb)
        (audioStep .evStart (audioStep (.reqPlay a ta) s)))).playingId
      ≠ some a) := by
  by_cases ha : s.playingId = some a
  · simp [audioStep, playAudio, stopAudio, onStart, ha, hab,
      Ne.symm hab]
  · simp [audioStep, playAudio, stopAudio, onStart, ha, hab,
      Ne.symm hab]

/-- Witness for C3 with concrete distinct items from the initial
state. -/
theorem preemption_a_then_b_witness :
    ((audioStep (.reqPlay "b" "tb")
        (audioStep .evStart (audioStep (.reqPlay "a" "ta") initAudio))).current
      = some { id := "b", text := "tb", phase := .scheduled }) ∧
    ((audioStep .evStart (audioStep (.reqPlay "b" "tb")
        (audioStep .evStart (audioStep (.reqPlay "a" "ta") initAudio)))).playingId
      = some "b") ∧
    ((audioStep .evStart (audioStep (.reqPlay "b" "tb")
        (audioStep .evStart (audioStep (.reqPlay "a" "ta") initAudio)))).playingId
      ≠ some "a") :=
  preemption_a_then_b "a" "b" "ta" "tb" initAudio (by decide)

/-- C4: a play request on a non-active id never marks it active at
request time — the request leaves `playingId` unchanged, no event other
than the start callback can make an id active, and the start callback
following the request is what sets `playingId` to the requested id. -/
theorem active_only_at_start (id t : String) (s : AudioState) :
    (s.playingId ≠ some id →
      (audioStep (.reqPlay id t) s).playingId = s.playingId) ∧
    (∀ (e : AudioEvent) (s2 : AudioState) (x : String),
      e ≠ .evStart → (audioStep e s2).playingId = some x →
      s2.playingId = some x) ∧
    (s.playingId ≠ some id →
      (audioStep .evStart (audioStep (.reqPlay id t) s)).playingId
        = some id) := by
  refine ⟨?_, ?_, ?_⟩
  · intro h
    simp [audioStep, playAudio, h]
  · intro e s2 x he hx
    cases e with
    | reqPlay id2 t2 =>
        by_cases h2 : s2.playingId = some id2 <;>
          simp_all [audioStep, playAudio, stopAudio]
    | reqStop => simp_all [audioStep, stopAudio]
    | evStart => exact absurd rfl he
    | evEnd =>
        cases hc : s2.current with
        | none => simpa [audioStep, onEnd, hc] using hx
        | some u =>
            by_cases hp : u.phase = Phase.started <;>
              simp_all [audioStep, onEnd]
    | evError =>
        cases hc : s2.current with
        | none => simpa [audioStep, onError, hc] using hx
        | some u => simp_all [audioStep, onError]
  · intro h
    simp [audioStep, playAudio, onStart, h]

/-- Witness for C4 at concrete values: from the initial state, the
request leaves nothing active and the start event activates `m1`. -/
theorem active_only_at_start_witness :
    ((audioStep (.reqPlay "m1" "t") initAudio).playingId
      = initAudio.playingId) ∧
    (({ playingId := some "x", current := none } : AudioState).playingId
      = some "x") ∧
    ((audioStep .evStart (audioStep (.reqPlay "m1" "t") initAudio)).playingId
      = some "m1") :=
  ⟨(active_only_at_start "m1" "t" initAudio).1 (by decide),
   (active_only_at_start "m1" "t" initAudio).2.1 .evEnd
     { playingId := some "x", current := none } "x" (by decide) rfl,
   (active_only_at_start "m1" "t" initAudio).2.2 (by decide)⟩

/-- C5: `stop()` unconditionally cancels playback and clears the active
id; natural completion of a started utterance and a playback error on an
in-flight utterance each leave the coordinator in exactly the state
`stop()` produces, with no caller action. -/
theorem stop_end_error_clear (s : AudioState) (u : Utterance) :
    (audioStep .reqStop s = initAudio) ∧
    (s.current = some u → u.phase = Phase.started →
      audioStep .evEnd s = audioStep .reqStop s) ∧
    (s.current = some u →
      audioStep .evError s = audioStep .reqStop s) := by
  refine ⟨by simp [audioStep, stopAudio, initAudio], ?_, ?_⟩
  · intro hc hp
    simp [audioStep, onEnd, stopAudio, hc, hp]
  · intro hc
    simp [audioStep, onError, stopAudio, hc]

/-- Witness for C5 at a concrete mid-playback state. -/
theorem stop_end_error_clear_witness :
    (audioStep .reqStop
      { playingId := some "m1",
        current := some { id := "m1", text := "t", phase := .started } }
      = initAudio) ∧
    (audioStep .evEnd
      { playingId := some "m1",
        current := some { id := "m1", text := "t", phase := .started } }
      = audioStep .reqStop
      { playingId := some "m1",
        current := some { id := "m1", text := "t", phase := .started } }) ∧
    (audioStep .evError
      { playingId := some "m1",
        current := some { id := "m1", text := "t", phase := .started } }
      = audioStep .reqStop
      { playingId := some "m1",
        current := some { id := "m1", text := "t", phase := .started } }) :=
  ⟨(stop_end_error_clear
      { playingId := some "m1",
        current := some { id := "m1", text := "t", phase := .started } }
      { id := "m1", text := "t", phase := .started }).1,
   (stop_end_error_clear _ _).2.1 rfl rfl,
   (stop_end_error_clear _ _).2.2 rfl⟩

/-- C6: when the speech capability is unavailable, `handleSpeak` informs
the user exactly once for the attempt and leaves the coordinator state
untouched — no play or stop is issued. -/
theorem speak_unavailable_alerts_once (item : Item) (s : AudioState) :
    handleSpeak false item s = { alerts := 1, state := s } := rfl

/-! ### Helper lemmas about percent-encoding -/

theorem hexVal_hexDigitChar : ∀ n, n < 16 → hexVal (hexDigitChar n) = some n := by
  decide

theorem isUriUnescaped_toNat_lt {c : Char} (h : isUriUnescaped c = true) :
    c.toNat < 128 := by
  simp [isUriUnescaped] at h
  omega

theorem isUriUnescaped_ne_percent {c : Char} (h : isUriUnescaped c = true) :
    c ≠ '%' := by
  intro hc
  subst hc
  exact absurd h (by decide)

theorem utf8Bytes_unescaped {c : Char} (h : isUriUnescaped c = true) :
    utf8Bytes c = [c.toNat] := by
  have h128 := isUriUnescaped_toNat_lt h
  simp [utf8Bytes, h128]

theorem char_toNat_lt (c : Char) : c.toNat < 1114112 := by
  have hv : c.toNat.isValidChar := c.valid
  rcases hv with h | ⟨_, h⟩ <;> omega

theorem utf8Bytes_lt_256 (c : Char) : ∀ b ∈ utf8Bytes c, b < 256 := by
  have hlt := char_toNat_lt c
  intro b hb
  unfold utf8Bytes at hb
  by_cases h1 : c.toNat < 128
  · simp [h1] at hb
    omega
  · by_cases h2 : c.toNat < 2048
    · simp [h1, h2] at hb
      rcases hb with rfl | rfl <;> omega
    · by_cases h3 : c.toNat < 65536
      · simp [h1, h2, h3] at hb
        rcases hb with rfl | rfl | rfl <;> omega
      · simp [h1, h2, h3] at hb
        rcases hb with rfl | rfl | rfl | rfl <;> omega

theorem percentDecodeBytes_chunk (b : Nat) (hb : b < 256) (rest : List Char) :
    percentDecodeBytes (percentByteChars b ++ rest)
      = (percentDecodeBytes rest).map (b :: ·) := by
  have h1 : hexVal (hexDigitChar (b / 16)) = some (b / 16) :=
    hexVal_hexDigitChar _ (by omega)
  have h2 : hexVal (hexDigitChar (b % 16)) = some (b % 16) :=
    hexVal_hexDigitChar _ (by omega)
  have hb' : 16 * (b / 16) + b % 16 = b := by omega
  simp [percentByteChars, percentDecodeBytes, h1, h2, hb']

theorem percentDecodeBytes_flatMap (bs : List Nat) (h : ∀ b ∈ bs, b < 256)
    (rest : List Char) :
    percentDecodeBytes (bs.flatMap percentByteChars ++ rest)
      = (percentDecodeBytes rest).map (bs ++ ·) := by
  induction bs with
  | nil =>
      cases hrest : percentDecodeBytes rest <;> simp [hrest]
  | cons b bs ih =>
      rw [List.flatMap_cons, List.append_assoc,
        percentDecodeBytes_chunk b (h b (by simp)) _,
        ih (fun x hx => h x (by simp [hx]))]
      cases hrest : percentDecodeBytes rest <;> simp [hrest]

theorem percentDecodeBytes_cons {c : Char} (hne : c ≠ '%') (rest : List Char) :
    percentDecodeBytes (c :: rest)
      = (percentDecodeBytes rest).map (c.toNat :: ·) := by
  cases rest with
  | nil =>
      rw [percentDecodeBytes.eq_3 c [] (by intro a b l2 hh; simp at hh),
        if_neg hne]
  | cons d tail =>
      cases tail with
      | nil =>
          rw [percentDecodeBytes.eq_3 c [d] (by intro a b l2 hh; simp at hh),
            if_neg hne]
      | cons e tail2 =>
          rw [percentDecodeBytes.eq_2, if_neg hne]

theorem percentDecodeBytes_encodeChar (c : Char) (rest : List Char) :
    percentDecodeBytes (encodeChar c ++ rest)
      = (percentDecodeBytes rest).map (utf8Bytes c ++ ·) := by
  by_cases h : isUriUnescaped c
  · have hne := isUriUnescaped_ne_percent h
    rw [encodeChar, if_pos h, utf8Bytes_unescaped h]
    simp only [List.singleton_append]
    rw [percentDecodeBytes_cons hne]
  · rw [encodeChar, if_neg h]
    exact percentDecodeBytes_flatMap _ (utf8Bytes_lt_256 c) rest

theorem utf8DecodeOne_length {b n : Nat} {rest rest2 : List Nat}
    (h : utf8DecodeOne b rest = some (n, rest2)) :
    rest2.length ≤ rest.length := by
  unfold utf8DecodeOne at h
  split_ifs at h with h1 h2 h3 h4
  · simp only [Option.some.injEq, Prod.mk.injEq] at h
    obtain ⟨-, rfl⟩ := h
    exact Nat.le_refl _
  · cases rest with
    | nil => simp at h
    | cons b2 r2 =>
        simp only [] at h
        split_ifs at h with hg
        · simp only [Option.some.injEq, Prod.mk.injEq] at h
          obtain ⟨-, rfl⟩ := h
          simp only [List.length_cons]
          omega
  · cases rest with
    | nil => simp at h
    | cons b2 r2 =>
        cases r2 with
        | nil => simp at h
        | cons b3 r3 =>
            simp only [] at h
            split_ifs at h with hg
            · simp only [Option.some.injEq, Prod.mk.injEq] at h
              obtain ⟨-, rfl⟩ := h
              simp only [List.length_cons]
              omega
  · cases rest with
    | nil => simp at h
    | cons b2 r2 =>
        cases r2 with
        | nil => simp at h
        | cons b3 r3 =>
            cases r3 with
            | nil => simp at h
            | cons b4 r4 =>
                simp only [] at h
                split_ifs at h with hg
                · simp only [Option.some.injEq, Prod.mk.injEq] at h
                  obtain ⟨-, rfl⟩ := h
                  simp only [List.length_cons]
                  omega

theorem utf8DecodeAux_mono (fuel fuel2 : Nat) (bs : List Nat)
    (h : bs.length ≤ fuel) (h2 : bs.length ≤ fuel2) :
    utf8DecodeAux fuel bs = utf8DecodeAux fuel2 bs := by
  induction fuel generalizing fuel2 bs with
  | zero =>
      cases bs with
      | nil => cases fuel2 <;> rfl
      | cons b rest => simp at h
  | succ fuel ih =>
      cases bs with
      | nil => cases fuel2 <;> rfl
      | cons b rest =>
          cases fuel2 with
          | zero => simp at h2
          | succ fuel3 =>
              simp only [utf8DecodeAux]
              cases hone : utf8DecodeOne b rest with
              | none => rfl
              | some pr =>
                  obtain ⟨n, rest2⟩ := pr
                  have hlen := utf8DecodeOne_length hone
                  simp only [List.length_cons] at h h2
                  simp only []
                  rw [ih fuel3 rest2 (by omega) (by omega)]

theorem utf8DecodeOne_utf8Bytes (c : Char) (rest : List Nat) :
    ∃ b tail, utf8Bytes c = b :: tail ∧
      utf8DecodeOne b (tail ++ rest) = some (c.toNat, rest) := by
  have hlt := char_toNat_lt c
  by_cases h1 : c.toNat < 128
  · refine ⟨c.toNat, [], by simp [utf8Bytes, h1], ?_⟩
    unfold utf8DecodeOne
    rw [if_pos h1]
    simp
  · by_cases h2 : c.toNat < 2048
    · refine ⟨192 + c.toNat / 64, [128 + c.toNat % 64],
        by simp [utf8Bytes, h1, h2], ?_⟩
      unfold utf8DecodeOne
      rw [if_neg (by omega), if_pos (by omega)]
      simp only [List.cons_append, List.nil_append]
      rw [if_pos (by omega)]
      simp only [Nat.add_sub_cancel_left, Option.some.injEq, Prod.mk.injEq]
      exact ⟨by omega, trivial⟩
    · by_cases h3 : c.toNat < 65536
      · refine ⟨224 + c.toNat / 4096,
          [128 + c.toNat / 64 % 64, 128 + c.toNat % 64],
          by simp [utf8Bytes, h1, h2, h3], ?_⟩
        unfold utf8DecodeOne
        rw [if_neg (by omega), if_neg (by omega), if_pos (by omega)]
        simp only [List.cons_append, List.nil_append]
        rw [if_pos (by omega)]
        simp only [Nat.add_sub_cancel_left, Option.some.injEq, Prod.mk.injEq]
        exact ⟨by omega, trivial⟩
      · refine ⟨240 + c.toNat / 262144,
          [128 + c.toNat / 4096 % 64, 128 + c.toNat / 64 % 64,
            128 + c.toNat % 64],
          by simp [utf8Bytes, h1, h2, h3], ?_⟩
        unfold utf8DecodeOne
        rw [if_neg (by omega), if_neg (by omega), if_neg (by omega),
          if_pos (by omega)]
        simp only [List.cons_append, List.nil_append]
        rw [if_pos (by omega)]
        simp only [Nat.add_sub_cancel_left, Option.some.injEq, Prod.mk.injEq]
        exact ⟨by omega, trivial⟩

theorem utf8DecodeBytes_utf8Bytes (c : Char) (rest : List Nat) :
    utf8DecodeBytes (utf8Bytes c ++ rest)
      = (utf8DecodeBytes rest).map (c :: ·) := by
  obtain ⟨b, tail, hbytes, hone⟩ := utf8DecodeOne_utf8Bytes c rest
  unfold utf8DecodeBytes
  rw [hbytes]
  simp only [List.cons_append, List.length_cons]
  simp only [utf8DecodeAux]
  rw [hone]
  simp only []
  rw [if_pos (show (c.toNat).isValidChar from c.valid)]
  rw [utf8DecodeAux_mono (tail ++ rest).length rest.length rest
    (by simp only [List.length_append]; omega) (Nat.le_refl _),
    Char.ofNat_toNat]

theorem decode_encode_list (cs : List Char) :
    percentDecodeBytes (cs.flatMap encodeChar) = some (cs.flatMap utf8Bytes) ∧
    utf8DecodeBytes (cs.flatMap utf8Bytes) = some cs := by
  induction cs with
  | nil => exact ⟨rfl, rfl⟩
  | cons c cs ih =>
      constructor
      · rw [List.flatMap_cons, percentDecodeBytes_encodeChar, ih.1]
        simp
      · rw [List.flatMap_cons, utf8DecodeBytes_utf8Bytes, ih.2]
        simp

theorem decodeURIComponent_encodeURIComponent (s : String) :
    decodeURIComponent (encodeURIComponent s) = some s := by
  simp only [decodeURIComponent, encodeURIComponent]
  rw [(decode_encode_list s.data).1]
  show (match utf8DecodeBytes (s.data.flatMap utf8Bytes) with
    | some cs => some (⟨cs⟩ : String)
    | none => none) = some s
  rw [(decode_encode_list s.data).2]

theorem encodeURIComponent_append (a b : String) :
    encodeURIComponent (a ++ b) = encodeURIComponent a ++ encodeURIComponent b := by
  apply String.ext
  simp [encodeURIComponent]

/-- C8: for every item, `handleShare` builds the share link from the
fixed template base followed by the percent-encoding of exactly the
item's text and then the fixed attribution suffix; the encoding is
faithful — percent-decoding the payload gives back exactly
`item.text ++ attributionSuffix`. -/
theorem share_link_payload (item : Item) :
    handleShare item
      = shareUrlBase ++ (encodeURIComponent item.text
          ++ encodeURIComponent attributionSuffix) ∧
    decodeURIComponent (encodeURIComponent (item.text ++ attributionSuffix))
      = some (item.text ++ attributionSuffix) := by
  constructor
  · rw [handleShare, encodeURIComponent_append]
  · exact decodeURIComponent_encodeURIComponent _

/-! ### Helper lemmas about path splitting -/

theorem splitSlashAux_no_slash (cs : List Char) (acc : List Char)
    (h : ∀ c ∈ cs, c ≠ '/') :
    splitSlashAux cs acc = [⟨acc.reverse ++ cs⟩] := by
  induction cs generalizing acc with
  | nil => simp [splitSlashAux]
  | cons c cs ih =>
      have hc : c ≠ '/' := h c (by simp)
      rw [splitSlashAux, if_neg hc, ih (c :: acc) (fun d hd => h d (by simp [hd]))]
      simp

theorem splitSlashAux_append_slash (cs rest : List Char) (acc : List Char)
    (h : ∀ c ∈ cs, c ≠ '/') :
    splitSlashAux (cs ++ '/' :: rest) acc
      = (⟨acc.reverse ++ cs⟩ : String) :: splitSlashAux rest [] := by
  induction cs generalizing acc with
  | nil => simp [splitSlashAux]
  | cons c cs ih =>
      have hc : c ≠ '/' := h c (by simp)
      rw [List.cons_append, splitSlashAux, if_neg hc,
        ih (c :: acc) (fun d hd => h d (by simp [hd]))]
      simp

theorem pathSegments_item_path (a b : String) (ha : a ≠ "") (hb : b ≠ "")
    (ha2 : ∀ c ∈ a.data, c ≠ '/') (hb2 : ∀ c ∈ b.data, c ≠ '/') :
    pathSegments ("/" ++ a ++ "/" ++ b) = [a, b] := by
  have hdata : ("/" ++ a ++ "/" ++ b).data = '/' :: (a.data ++ '/' :: b.data) := by
    simp [String.data_append]
  unfold pathSegments splitSlash
  rw [hdata, splitSlashAux, if_pos rfl,
    splitSlashAux_append_slash a.data b.data [] ha2,
    splitSlashAux_no_slash b.data [] hb2]
  rw [show (⟨([] : List Char).reverse⟩ : String) = "" from rfl,
    show (⟨([] : List Char).reverse ++ a.data⟩ : String) = a from rfl,
    show (⟨([] : List Char).reverse ++ b.data⟩ : String) = b from rfl]
  simp [List.filter_cons, ha, hb]

/-- C9: the explicit back action navigates from an items view
`/{sectionId}/{categoryId}` (segments nonempty, slash-free) to the
section view `/{sectionId}`, and from any path with at most one segment
to Home `/`. -/
theorem back_navigation :
    (∀ a b : String, a ≠ "" → b ≠ "" →
      (∀ c ∈ a.data, c ≠ '/') → (∀ c ∈ b.data, c ≠ '/') →
      handleBack ("/" ++ a ++ "/" ++ b) = "/" ++ a) ∧
    (∀ p : String, (pathSegments p).length ≤ 1 → handleBack p = "/") := by
  constructor
  · intro a b ha hb ha2 hb2
    rw [handleBack, pathSegments_item_path a b ha hb ha2 hb2]
    rfl
  · intro p hp
    simp only [handleBack]
    rw [if_neg (by omega)]

/-- Witness for C9: back from `/azkar/azkar_morning` goes to `/azkar`,
and back from the one-segment path `/azkar` goes Home. -/
theorem back_navigation_witness :
    handleBack "/azkar/azkar_morning" = "/azkar" ∧ handleBack "/azkar" = "/" :=
  ⟨back_navigation.1 "azkar" "azkar_morning" (by decide) (by decide)
      (by decide) (by decide),
   back_navigation.2 "/azkar" (by decide)⟩

/-- C7: for a section identifier matching no section of the static
store, `SectionCategoriesPage` renders the not-found placeholder, and
for a section/category pair matching no category of a matching section,
`ItemsListPage` renders the not-found placeholder; both are total
functions, so no exception or redirect occurs. -/
theorem missing_id_not_found (store : List Section)
    (sectionId categoryId : String) :
    ((∀ sec ∈ store, sec.id ≠ sectionId) →
      sectionCategoriesPage store sectionId = .notFound) ∧
    ((∀ sec ∈ store, sec.id = sectionId →
        ∀ cat ∈ sec.categories, cat.id ≠ categoryId) →
      itemsListPage store sectionId categoryId = .notFound) := by
  constructor
  · intro h
    have hfind : store.find? (fun s => s.id = sectionId) = none := by
      rw [List.find?_eq_none]
      intro sec hsec
      simp [h sec hsec]
    simp [sectionCategoriesPage, hfind]
  · intro h
    cases hfind : store.find? (fun s => s.id = sectionId) with
    | none => simp [itemsListPage, hfind]
    | some sec =>
        have hsec : sec ∈ store := List.mem_of_find?_eq_some hfind
        have hid : sec.id = sectionId := by
          have := List.find?_some hfind
          simpa using this
        have hcat : sec.categories.find? (fun c => c.id = categoryId) = none := by
          rw [List.find?_eq_none]
          intro cat hmem
          simp [h sec hsec hid cat hmem]
        simp [itemsListPage, hfind, hcat]

/-- Witness for C7: a one-section store, an unknown section id and an
unknown category id both render not-found. -/
theorem missing_id_not_found_witness :
    (sectionCategoriesPage
      [{ id := "azkar", title := "t", description := "d",
         categories := [{ id := "azkar_morning", title := "m",
                          items := [{ id := "m1", text := "x" }] }] }]
      "nope" = .notFound) ∧
    (itemsListPage
      [{ id := "azkar", title := "t", description := "d",
         categories := [{ id := "azkar_morning", title := "m",
                          items := [{ id := "m1", text := "x" }] }] }]
      "azkar" "nope" = .notFound) :=
  ⟨(missing_id_not_found _ "nope" "x").1 (by decide),
   (missing_id_not_found _ "azkar" "nope").2 (by decide)⟩

/-- C10: when `ItemsListPage` shows the items view, the matched section
is the one with the requested section id, and every rendered card offers
Copy, offers Speak exactly when that section id is `azkar`, and offers
Share exactly when that section id is `adiyah`. -/
theorem card_actions_by_section (store : List Section)
    (sectionId categoryId : String) (sec : Section) (cat : Category)
    (h : itemsListPage store sectionId categoryId = .itemsView sec cat) :
    sec.id = sectionId ∧
    ∀ pr ∈ itemsListPageCards store sectionId categoryId,
      pr.2.copy = true ∧
      (pr.2.speak = true ↔ sec.id = "azkar") ∧
      (pr.2.share = true ↔ sec.id = "adiyah") := by
  cases hfind : store.find? (fun s => s.id = sectionId) with
  | none => simp [itemsListPage, hfind] at h
  | some sec2 =>
      have hid : sec2.id = sectionId := by
        have := List.find?_some hfind
        simpa using this
      cases hcat : sec2.categories.find? (fun c => c.id = categoryId) with
      | none => simp [itemsListPage, hfind, hcat] at h
      | some cat2 =>
          have hview : sec2 = sec ∧ cat2 = cat := by
            simpa [itemsListPage, hfind, hcat] using h
          obtain ⟨rfl, rfl⟩ := hview
          refine ⟨hid, ?_⟩
          intro pr hpr
          simp only [itemsListPageCards, itemsListPage, hfind, hcat,
            Option.some_bind, List.mem_map] at hpr
          obtain ⟨it, -, rfl⟩ := hpr
          simp [contentCardActions, hid]

/-- Witness for C10 on a concrete two-section store: the azkar section's
cards offer Speak and Copy but not Share. -/
theorem card_actions_by_section_witness :
    ({ id := "azkar", title := "t", description := "d",
       categories := [{ id := "azkar_morning", title := "m",
                        items := [{ id := "m1", text := "x" }] }] } :
        Section).id = "azkar" ∧
    ∀ pr ∈ itemsListPageCards
      [{ id := "azkar", title := "t", description := "d",
         categories := [{ id := "azkar_morning", title := "m",
                          items := [{ id := "m1", text := "x" }] }] }]
      "azkar" "azkar_morning",
      pr.2.copy = true ∧
      (pr.2.speak = true ↔
        ({ id := "azkar", title := "t", description := "d",
           categories := [{ id := "azkar_morning", title := "m",
                            items := [{ id := "m1", text := "x" }] }] } :
            Section).id = "azkar") ∧
      (pr.2.share = true ↔
        ({ id := "azkar", title := "t", description := "d",
           categories := [{ id := "azkar_morning", title := "m",
                            items := [{ id := "m1", text := "x" }] }] } :
            Section).id = "adiyah") :=
  card_actions_by_section
    [{ id := "azkar", title := "t", description := "d",
       categories := [{ id := "azkar_morning", title := "m",
                        items := [{ id := "m1", text := "x" }] }] }]
    "azkar" "azkar_morning"
    { id := "azkar", title := "t", description := "d",
      categories := [{ id := "azkar_morning", title := "m",
                       items := [{ id := "m1", text := "x" }] }] }
    { id := "azkar_morning", title := "m",
      items := [{ id := "m1", text := "x" }] }
    (by decide)

end Azkar
